import Mathlib

/-!
# PyWebGuard rate limiter: shallow embedding and verification

A shallow embedding of `pywebguard/limiters/rate_limit.py` (the synchronous
`RateLimiter` and the asynchronous `AsyncRateLimiter`) together with the
abstract key-value store contract they consume, and proofs of the spec's
claims about route matching, rule resolution and `check_limit`.

Python strings are modelled as Lean `String`, Python integers as `Int`
(counter values) or `Nat` (epoch times), and Python `None` as `Option`.
A storage call that would raise a Python exception (incrementing or
comparing a non-integer value) is modelled as `Option.none` at the level
of `checkLimit`'s overall result.
-/

set_option maxHeartbeats 1600000

namespace PyWebGuard

/-- A value held by the key-value store: either an integer counter or the
ban-record dictionary `{reason, timestamp}` that `check_limit` writes under
`banned_ip:{identifier}`. -/
inductive Val : Type where
  | int (n : Int) : Val
  | ban (reason : String) (timestamp : Nat) : Val
  deriving DecidableEq, Repr

/-- A stored entry: the value plus its absolute expiry deadline
(`none` = no TTL).  `set`/`increment` with a TTL of `s` seconds at time `t`
record the deadline `t + s`. -/
structure Entry : Type where
  val : Val
  expiry : Option Nat
  deriving DecidableEq, Repr

/-- The shared key-value store, as a total map from keys to entries. -/
def Store : Type := String → Option Entry

/-- The store with no keys at all. -/
def emptyStore : Store := fun _ => none

/-- Modelled from the spec: `get(key) -> value | absent` of the KeyValueStore
contract (§6); the storage backends themselves are not under `src/`.  Returns
the stored value, or absent if the key is missing or its TTL has expired
(`t` is the current epoch time of the call). -/
def Storage.get (st : Store) (t : Nat) (k : String) : Option Val :=
  match st k with
  | none => none
  | some e =>
    match e.expiry with
    | none => some e.val
    | some d => if t < d then some e.val else none

/-- Modelled from the spec: `set(key, value, ttl_seconds | none)` of the
KeyValueStore contract (§6).  Stores the value; with a TTL the key
auto-expires that many seconds after this call. -/
def Storage.set (st : Store) (t : Nat) (k : String) (v : Val) (ttl : Option Nat) :
    Store :=
  fun k2 => if k2 = k then some ⟨v, ttl.map (fun s => t + s)⟩ else st k2

/-- Modelled from the spec: `increment(key, amount, ttl_seconds) ->
new_integer_value` of the KeyValueStore contract (§6): atomic read-add-write;
creates the key at `amount` if absent (applying the TTL only then); an
existing entry keeps its TTL.  Returns `none` (a raised error) if the stored
value is not an integer. -/
def Storage.increment (st : Store) (t : Nat) (k : String) (amount : Int)
    (ttl : Option Nat) : Option (Int × Store) :=
  match Storage.get st t k with
  | none => some (amount, Storage.set st t k (.int amount) ttl)
  | some (.int n) =>
    some (n + amount,
      fun k2 =>
        if k2 = k then
          match st k with
          | none => some ⟨.int (n + amount), ttl.map (fun s => t + s)⟩
          | some e => some ⟨.int (n + amount), e.expiry⟩
        else st k2)
  | some (.ban _ _) => none

/-- One storage operation, as recorded in the trace of a `check_limit` call. -/
inductive Op : Type where
  | get (k : String) : Op
  | set (k : String) (v : Val) (ttl : Option Nat) : Op
  | incr (k : String) (amount : Int) (ttl : Option Nat) : Op
  deriving DecidableEq, Repr

/-- Whether a storage operation mutates the store. -/
def Op.isWrite : Op → Bool
  | .get _ => false
  | .set _ _ _ => true
  | .incr _ _ _ => true

/-- The key a storage operation touches. -/
def Op.key : Op → String
  | .get k => k
  | .set k _ _ => k
  | .incr k _ _ => k

/-- Modelled from the spec: the rate-limit rule / configuration section
(`RateLimitConfig` lives in `pywebguard/core/config.py`, which is not under
`src/`).  Field names follow the attributes `rate_limit.py` reads:
`enabled`, `requests_per_minute`, `burst_size`, `auto_ban_threshold` and
`auto_ban_duration_minutes`. -/
structure RateLimitConfig : Type where
  enabled : Bool
  requests_per_minute : Int
  burst_size : Int
  auto_ban_threshold : Int
  auto_ban_duration_minutes : Int
  deriving DecidableEq, Repr

/-- Modelled from the spec: the rule's ban duration expressed in seconds
(the spec's `auto_ban_duration_seconds`); the limiter passes
`config.auto_ban_duration_minutes * 60` as the ban TTL. -/
def RateLimitConfig.auto_ban_duration_seconds (c : RateLimitConfig) : Int :=
  c.auto_ban_duration_minutes * 60

/-- The synchronous `RateLimiter`: the default config plus the ordered
route-pattern bindings (`self.route_configs`, an insertion-ordered dict). -/
structure RateLimiter : Type where
  config : RateLimitConfig
  routeConfigs : List (String × RateLimitConfig)

/-- `RateLimiter._match_route_pattern`: simple wildcard matching on the
characters of pattern and path, mirroring the Python string operations. -/
def matchRoutePattern (pattern path : String) : Bool :=
  if pattern = "*" then
    true
  else if List.isSuffixOf "/**".data pattern.data then
    -- prefix = pattern[:-3]; return path.startswith(prefix)
    let pre := pattern.data.take (pattern.data.length - 3)
    List.isPrefixOf pre path.data
  else if List.isSuffixOf "/*".data pattern.data then
    -- prefix = pattern[:-2]
    let pre := pattern.data.take (pattern.data.length - 2)
    if ¬ List.isPrefixOf pre path.data then
      false
    else
      -- remaining = path[len(prefix):]
      let remaining := path.data.drop pre.length
      remaining = [] ∨
        (List.isPrefixOf "/".data remaining ∧ ¬ (remaining.drop 1).contains '/')
  else
    pattern = path

/-- Membership test of `path in self.route_configs` (dict key lookup),
returning the bound config. -/
def lookupRoute (l : List (String × RateLimitConfig)) (path : String) :
    Option RateLimitConfig :=
  match l with
  | [] => none
  | (k, c) :: rest => if k = path then some c else lookupRoute rest path

/-- The first binding (in registration order) whose pattern matches the path
via `matchRoutePattern`. -/
def firstMatchingRoute (l : List (String × RateLimitConfig)) (path : String) :
    Option RateLimitConfig :=
  match l with
  | [] => none
  | (k, c) :: rest =>
    if matchRoutePattern k path then some c else firstMatchingRoute rest path

/-- `RateLimiter.get_config_for_route`: exact match first, then the first
pattern match in registration order, else the default config. -/
def getConfigForRoute (rl : RateLimiter) (path : String) : RateLimitConfig :=
  match lookupRoute rl.routeConfigs path with
  | some c => c
  | none =>
    match firstMatchingRoute rl.routeConfigs path with
    | some c => c
    | none => rl.config

/-- The config `check_limit` starts from: the default when `path is None`,
otherwise `get_config_for_route(path)`. -/
def resolvedConfig (rl : RateLimiter) (path : Option String) : RateLimitConfig :=
  match path with
  | none => rl.config
  | some p => getConfigForRoute rl p

/-- `path_suffix = f":{path}" if path else ""`: empty for `None` and for the
(falsy) empty string. -/
def pathSuffix (path : Option String) : String :=
  match path with
  | none => ""
  | some p => if p = "" then "" else ":" ++ p

/-- `path or 'global'`: the literal `"global"` for `None` and for the (falsy)
empty string. -/
def pathOrGlobal (path : Option String) : String :=
  match path with
  | none => "global"
  | some p => if p = "" then "global" else p

/-- `f"ratelimit:{identifier}{path_suffix}:{current_time // 60}"` with the
minute bucket `m = current_time // 60`. -/
def windowKeyStr (identifier suffix : String) (m : Nat) : String :=
  "ratelimit:" ++ identifier ++ suffix ++ ":" ++ Nat.repr m

/-- `f"ratelimit:burst:{identifier}{path_suffix}"`. -/
def burstKeyStr (identifier suffix : String) : String :=
  "ratelimit:burst:" ++ identifier ++ suffix

/-- `f"ratelimit:violations:{identifier}{path_suffix}"`. -/
def violationKeyStr (identifier suffix : String) : String :=
  "ratelimit:violations:" ++ identifier ++ suffix

/-- `f"banned_ip:{identifier}"`. -/
def banKeyStr (identifier : String) : String :=
  "banned_ip:" ++ identifier

/-- The rate-limit verdict dictionary; `reason` is present only on denial. -/
structure Verdict : Type where
  allowed : Bool
  remaining : Int
  reset : Int
  reason : Option String
  deriving DecidableEq, Repr

/-- `x or 0` on the result of a counter `get`: 0 when absent, the integer
when an integer is stored; `none` when the stored value is not an integer
(the subsequent Python comparison would raise). -/
def counterVal : Option Val → Option Int
  | none => some 0
  | some (.int n) => some n
  | some (.ban _ _) => none

/-- `RateLimiter.check_limit(identifier, path)` at epoch time `t` against
store `st`.  Returns the verdict, the store after the call, and the ordered
trace of storage operations; `none` models a raised storage type error. -/
def checkLimit (rl : RateLimiter) (identifier : String) (path : Option String)
    (t : Nat) (st : Store) : Option (Verdict × Store × List Op) :=
  let config := resolvedConfig rl path
  if ¬ config.enabled then
    some (⟨true, -1, -1, none⟩, st, [])
  else
    let suffix := pathSuffix path
    let windowKey := windowKeyStr identifier suffix (t / 60)
    match counterVal (Storage.get st t windowKey) with
    | none => none
    | some count =>
      if count ≥ config.requests_per_minute then
        let burstKey := burstKeyStr identifier suffix
        match counterVal (Storage.get st t burstKey) with
        | none => none
        | some burstCount =>
          if burstCount ≥ config.burst_size then
            let resetTime : Int := ((t / 60 + 1) * 60 : Nat)
            let reason := "Rate limit exceeded for " ++ pathOrGlobal path
            if config.auto_ban_threshold > 0 then
              let violationKey := violationKeyStr identifier suffix
              match Storage.increment st t violationKey 1 (some 86400) with
              | none => none
              | some (violations, st1) =>
                if violations ≥ config.auto_ban_threshold then
                  let banKey := banKeyStr identifier
                  let st2 := Storage.set st1 t banKey (.ban reason t)
                    (some (config.auto_ban_duration_minutes * 60).toNat)
                  some (⟨false, 0, resetTime, some reason⟩, st2,
                    [.get windowKey, .get burstKey,
                     .incr violationKey 1 (some 86400),
                     .set banKey (.ban reason t)
                       (some (config.auto_ban_duration_minutes * 60).toNat)])
                else
                  some (⟨false, 0, resetTime, some reason⟩, st1,
                    [.get windowKey, .get burstKey,
                     .incr violationKey 1 (some 86400)])
            else
              some (⟨false, 0, resetTime, some reason⟩, st,
                [.get windowKey, .get burstKey])
          else
            match Storage.increment st t burstKey 1 (some 3600) with
            | none => none
            | some (_, st1) =>
              match Storage.increment st1 t windowKey 1 (some 60) with
              | none => none
              | some (newCount, st2) =>
                some (⟨true, max 0 (config.requests_per_minute - newCount),
                    ((t / 60 + 1) * 60 : Nat), none⟩, st2,
                  [.get windowKey, .get burstKey, .incr burstKey 1 (some 3600),
                   .incr windowKey 1 (some 60)])
      else
        match Storage.increment st t windowKey 1 (some 60) with
        | none => none
        | some (newCount, st1) =>
          some (⟨true, max 0 (config.requests_per_minute - newCount),
              ((t / 60 + 1) * 60 : Nat), none⟩, st1,
            [.get windowKey, .incr windowKey 1 (some 60)])

/-- The asynchronous `AsyncRateLimiter`: same fields as the synchronous one. -/
structure AsyncRateLimiter : Type where
  config : RateLimitConfig
  routeConfigs : List (String × RateLimitConfig)

/-- `AsyncRateLimiter._match_route_pattern` (duplicated verbatim in the
source from the synchronous class). -/
def asyncMatchRoutePattern (pattern path : String) : Bool :=
  if pattern = "*" then
    true
  else if List.isSuffixOf "/**".data pattern.data then
    let pre := pattern.data.take (pattern.data.length - 3)
    List.isPrefixOf pre path.data
  else if List.isSuffixOf "/*".data pattern.data then
    let pre := pattern.data.take (pattern.data.length - 2)
    if ¬ List.isPrefixOf pre path.data then
      false
    else
      let remaining := path.data.drop pre.length
      remaining = [] ∨
        (List.isPrefixOf "/".data remaining ∧ ¬ (remaining.drop 1).contains '/')
  else
    pattern = path

/-- First pattern match in registration order, for the async limiter. -/
def asyncFirstMatchingRoute (l : List (String × RateLimitConfig))
    (path : String) : Option RateLimitConfig :=
  match l with
  | [] => none
  | (k, c) :: rest =>
    if asyncMatchRoutePattern k path then some c
    else asyncFirstMatchingRoute rest path

/-- `AsyncRateLimiter.get_config_for_route` (duplicated verbatim in the
source from the synchronous class). -/
def asyncGetConfigForRoute (rl : AsyncRateLimiter) (path : String) :
    RateLimitConfig :=
  match lookupRoute rl.routeConfigs path with
  | some c => c
  | none =>
    match asyncFirstMatchingRoute rl.routeConfigs path with
    | some c => c
    | none => rl.config

/-- The config `AsyncRateLimiter.check_limit` starts from. -/
def asyncResolvedConfig (rl : AsyncRateLimiter) (path : Option String) :
    RateLimitConfig :=
  match path with
  | none => rl.config
  | some p => asyncGetConfigForRoute rl p

/-- `AsyncRateLimiter.check_limit(identifier, path)` at epoch time `t`:
the suspendable variant, whose store operations are awaited one at a time;
under sequential execution its awaits resolve in program order, so it is
embedded as the same explicit state-passing computation. -/
def asyncCheckLimit (rl : AsyncRateLimiter) (identifier : String)
    (path : Option String) (t : Nat) (st : Store) :
    Option (Verdict × Store × List Op) :=
  let config := asyncResolvedConfig rl path
  if ¬ config.enabled then
    some (⟨true, -1, -1, none⟩, st, [])
  else
    let suffix := pathSuffix path
    let windowKey := windowKeyStr identifier suffix (t / 60)
    match counterVal (Storage.get st t windowKey) with
    | none => none
    | some count =>
      if count ≥ config.requests_per_minute then
        let burstKey := burstKeyStr identifier suffix
        match counterVal (Storage.get st t burstKey) with
        | none => none
        | some burstCount =>
          if burstCount ≥ config.burst_size then
            let resetTime : Int := ((t / 60 + 1) * 60 : Nat)
            let reason := "Rate limit exceeded for " ++ pathOrGlobal path
            if config.auto_ban_threshold > 0 then
              let violationKey := violationKeyStr identifier suffix
              match Storage.increment st t violationKey 1 (some 86400) with
              | none => none
              | some (violations, st1) =>
                if violations ≥ config.auto_ban_threshold then
                  let banKey := banKeyStr identifier
                  let st2 := Storage.set st1 t banKey (.ban reason t)
                    (some (config.auto_ban_duration_minutes * 60).toNat)
                  some (⟨false, 0, resetTime, some reason⟩, st2,
                    [.get windowKey, .get burstKey,
                     .incr violationKey 1 (some 86400),
                     .set banKey (.ban reason t)
                       (some (config.auto_ban_duration_minutes * 60).toNat)])
                else
                  some (⟨false, 0, resetTime, some reason⟩, st1,
                    [.get windowKey, .get burstKey,
                     .incr violationKey 1 (some 86400)])
            else
              some (⟨false, 0, resetTime, some reason⟩, st,
                [.get windowKey, .get burstKey])
          else
            match Storage.increment st t burstKey 1 (some 3600) with
            | none => none
            | some (_, st1) =>
              match Storage.increment st1 t windowKey 1 (some 60) with
              | none => none
              | some (newCount, st2) =>
                some (⟨true, max 0 (config.requests_per_minute - newCount),
                    ((t / 60 + 1) * 60 : Nat), none⟩, st2,
                  [.get windowKey, .get burstKey, .incr burstKey 1 (some 3600),
                   .incr windowKey 1 (some 60)])
      else
        match Storage.increment st t windowKey 1 (some 60) with
        | none => none
        | some (newCount, st1) =>
          some (⟨true, max 0 (config.requests_per_minute - newCount),
              ((t / 60 + 1) * 60 : Nat), none⟩, st1,
            [.get windowKey, .incr windowKey 1 (some 60)])

/-- A sequence of sequential `check_limit` calls with one identifier and
path, each at its own epoch time; returns the final store and the verdicts
in call order (`none` as soon as one call raises). -/
def runSeq (rl : RateLimiter) (identifier : String) (path : Option String) :
    List Nat → Store → Option (Store × List Verdict)
  | [], st => some (st, [])
  | tc :: ts, st =>
    match checkLimit rl identifier path tc st with
    | none => none
    | some (v, st1, _) =>
      match runSeq rl identifier path ts st1 with
      | none => none
      | some (st2, vs) => some (st2, v :: vs)

/-! ## Arithmetic and string facts used to separate the storage keys -/

/-- `Nat.digitChar` of a value below ten is a decimal digit. -/
lemma digitChar_isDigit {n : Nat} (h : n < 10) : n.digitChar.isDigit = true := by
  interval_cases n <;> decide

/-- Every character `Nat.toDigitsCore` emits over base ten is a digit. -/
lemma toDigitsCore_digits (fuel : Nat) :
    ∀ (n : Nat) (ds : List Char), (∀ c ∈ ds, c.isDigit = true) →
      ∀ c ∈ Nat.toDigitsCore 10 fuel n ds, c.isDigit = true := by
  induction fuel with
  | zero => intro n ds hds; simpa [Nat.toDigitsCore] using hds
  | succ fuel ih =>
    intro n ds hds c hc
    rw [Nat.toDigitsCore] at hc
    by_cases h0 : n / 10 = 0
    · simp only [h0, if_pos rfl] at hc
      rcases List.mem_cons.mp hc with h | h
      · subst h; exact digitChar_isDigit (Nat.mod_lt _ (by norm_num))
      · exact hds c h
    · simp only [if_neg h0] at hc
      refine ih (n / 10) (Nat.digitChar (n % 10) :: ds) ?_ c hc
      intro c2 hc2
      rcases List.mem_cons.mp hc2 with h | h
      · subst h; exact digitChar_isDigit (Nat.mod_lt _ (by norm_num))
      · exact hds c2 h

/-- The decimal representation of a natural number is all digits. -/
lemma reprDigits (n : Nat) : ∀ c ∈ (Nat.repr n).data, c.isDigit = true := by
  intro c hc
  exact toDigitsCore_digits (n + 1) n [] (by simp) c hc

/-- Key-separation core: a word equation `t ++ ":" ++ m = w ++ ":" ++ t` has
no solution when `w` contains no colon and some non-digit while `m` is all
digits.  (This is what distinguishes the window key, which ends in
`":{minute_bucket}"`, from the burst and violation keys, which splice
`"burst:"`/`"violations:"` right after `"ratelimit:"`.) -/
lemma append_colon_ne (w : List Char) (hw : ':' ∉ w)
    (hd : ∃ c ∈ w, c.isDigit = false) (t m : List Char)
    (hm : ∀ c ∈ m, c.isDigit = true) :
    t ++ ':' :: m ≠ (w ++ [':']) ++ t := by
  suffices H : ∀ n (t m : List Char), t.length = n →
      (∀ c ∈ m, c.isDigit = true) → t ++ ':' :: m ≠ (w ++ [':']) ++ t from
    H t.length t m rfl hm
  intro n
  induction n using Nat.strong_induction_on with
  | _ n ih =>
    intro t m hn hm heq
    by_cases hlen : t.length ≤ w.length
    · have htake : t = (w ++ [':']).take t.length := by
        have h1 : (t ++ ':' :: m).take t.length = t := List.take_left t _
        rw [heq] at h1
        rw [List.take_append_of_le_length (by simp; omega)] at h1
        exact h1.symm
      have hsplit : (w ++ [':']) = t ++ (w ++ [':']).drop t.length := by
        conv_lhs => rw [← List.take_append_drop t.length (w ++ [':'])]
        rw [← htake]
      have hcancel : ':' :: m = (w ++ [':']).drop t.length ++ t := by
        have h2 := heq
        conv at h2 => rhs; rw [hsplit]
        rw [List.append_assoc] at h2
        exact List.append_cancel_left h2
      rcases Nat.lt_or_ge t.length w.length with hlt | hge
      · rw [List.drop_append_of_le_length (le_of_lt hlt)] at hcancel
        rw [List.drop_eq_getElem_cons hlt] at hcancel
        simp only [List.cons_append] at hcancel
        have hcol : ':' = w[t.length] := by
          have h3 := List.head_eq_of_cons_eq hcancel.symm
          exact h3.symm
        exact hw (hcol ▸ List.getElem_mem hlt)
      · have heqlen : t.length = w.length := le_antisymm hlen hge
        rw [List.drop_append_of_le_length (le_of_eq heqlen)] at hcancel
        rw [heqlen, List.drop_length] at hcancel
        simp only [List.nil_append] at hcancel
        have hmt : m = t := List.tail_eq_of_cons_eq hcancel
        have htw : t = w := by
          rw [htake, List.take_append_of_le_length (le_of_eq heqlen),
            heqlen, List.take_length]
        rcases hd with ⟨c, hcw, hcd⟩
        have hdig : c.isDigit = true := hm c (by rw [hmt, htw]; exact hcw)
        rw [hcd] at hdig; exact Bool.false_ne_true hdig
    · push_neg at hlen
      have hvlen : (w ++ [':']).length ≤ t.length := by simp; omega
      have htake : (w ++ [':']) = t.take (w ++ [':']).length := by
        have h1 : ((w ++ [':']) ++ t).take (w ++ [':']).length = (w ++ [':']) :=
          List.take_left _ _
        rw [← heq] at h1
        rw [List.take_append_of_le_length hvlen] at h1
        exact h1.symm
      have hsplit : t = (w ++ [':']) ++ t.drop (w ++ [':']).length := by
        conv_lhs => rw [← List.take_append_drop (w ++ [':']).length t]
        rw [← htake]
      set t' := t.drop (w ++ [':']).length with ht'
      have heq' : t' ++ ':' :: m = (w ++ [':']) ++ t' := by
        have h2 := heq
        conv at h2 => lhs; rw [hsplit]
        conv at h2 => rhs; rw [hsplit]
        rw [List.append_assoc] at h2
        exact List.append_cancel_left h2
      have hlt : t'.length < n := by
        rw [← hn, ht']
        simp only [List.length_drop, List.length_append, List.length_cons,
          List.length_nil]
        omega
      exact ih t'.length hlt t' m rfl hm heq'

/-- The window key is never the violation key (for the same identifier and
path suffix, any minute bucket). -/
lemma windowKey_ne_violationKey (identifier suffix : String) (m : Nat) :
    windowKeyStr identifier suffix m ≠ violationKeyStr identifier suffix := by
  intro h
  have h2 := congrArg String.data h
  simp only [windowKeyStr, violationKeyStr, String.data_append] at h2
  rw [show (['r','a','t','e','l','i','m','i','t',':','v','i','o','l','a','t',
      'i','o','n','s',':'] : List Char) =
      ['r','a','t','e','l','i','m','i','t',':'] ++
        (['v','i','o','l','a','t','i','o','n','s'] ++ [':']) from rfl] at h2
  simp only [List.append_assoc] at h2
  have h3 := List.append_cancel_left h2
  refine append_colon_ne ['v','i','o','l','a','t','i','o','n','s'] (by decide)
    ⟨'v', by decide, by decide⟩ (identifier.data ++ suffix.data)
    (Nat.repr m).data (reprDigits m) ?_
  simpa [List.append_assoc] using h3

/-- The window key is never the burst key. -/
lemma windowKey_ne_burstKey (identifier suffix : String) (m : Nat) :
    windowKeyStr identifier suffix m ≠ burstKeyStr identifier suffix := by
  intro h
  have h2 := congrArg String.data h
  simp only [windowKeyStr, burstKeyStr, String.data_append] at h2
  rw [show (['r','a','t','e','l','i','m','i','t',':','b','u','r','s','t',
      ':'] : List Char) =
      ['r','a','t','e','l','i','m','i','t',':'] ++
        (['b','u','r','s','t'] ++ [':']) from rfl] at h2
  simp only [List.append_assoc] at h2
  have h3 := List.append_cancel_left h2
  refine append_colon_ne ['b','u','r','s','t'] (by decide)
    ⟨'b', by decide, by decide⟩ (identifier.data ++ suffix.data)
    (Nat.repr m).data (reprDigits m) ?_
  simpa [List.append_assoc] using h3

/-- The burst key is never the violation key (their fixed prefixes have
different lengths). -/
lemma burstKey_ne_violationKey (identifier suffix : String) :
    burstKeyStr identifier suffix ≠ violationKeyStr identifier suffix := by
  intro h
  have h2 := congrArg (fun s : String => s.data.length) h
  simp only [burstKeyStr, violationKeyStr, String.data_append,
    List.length_append, List.length_cons, List.length_nil] at h2
  omega

/-- The window key is never the ban key (they start with different letters). -/
lemma windowKey_ne_banKey (identifier suffix : String) (m : Nat)
    (identifier2 : String) :
    windowKeyStr identifier suffix m ≠ banKeyStr identifier2 := by
  intro h
  have h2 := congrArg String.data h
  simp only [windowKeyStr, banKeyStr, String.data_append,
    List.cons_append] at h2
  exact absurd (List.head_eq_of_cons_eq h2) (by decide)

/-- The burst key is never the ban key. -/
lemma burstKey_ne_banKey (identifier suffix identifier2 : String) :
    burstKeyStr identifier suffix ≠ banKeyStr identifier2 := by
  intro h
  have h2 := congrArg String.data h
  simp only [burstKeyStr, banKeyStr, String.data_append,
    List.cons_append] at h2
  exact absurd (List.head_eq_of_cons_eq h2) (by decide)

/-- The violation key is never the ban key. -/
lemma violationKey_ne_banKey (identifier suffix identifier2 : String) :
    violationKeyStr identifier suffix ≠ banKeyStr identifier2 := by
  intro h
  have h2 := congrArg String.data h
  simp only [violationKeyStr, banKeyStr, String.data_append,
    List.cons_append] at h2
  exact absurd (List.head_eq_of_cons_eq h2) (by decide)

/-! ## Storage behaviour lemmas -/

/-- Reading a missing key is absent. -/
lemma get_of_none {st : Store} {k : String} (t : Nat) (h : st k = none) :
    Storage.get st t k = none := by
  simp [Storage.get, h]

/-- Reading an unexpired entry returns its value. -/
lemma get_of_live {st : Store} {k : String} {v : Val} {d t : Nat}
    (h : st k = some ⟨v, some d⟩) (hlt : t < d) :
    Storage.get st t k = some v := by
  simp [Storage.get, h, hlt]

/-- `set` writes the requested entry at the requested key. -/
lemma set_apply_self (st : Store) (t : Nat) (k : String) (v : Val)
    (ttl : Option Nat) :
    Storage.set st t k v ttl k = some ⟨v, ttl.map (fun s => t + s)⟩ := by
  simp [Storage.set]

/-- `set` leaves every other key untouched. -/
lemma set_apply_ne (st : Store) (t : Nat) (k : String) (v : Val)
    (ttl : Option Nat) {k2 : String} (h : k2 ≠ k) :
    Storage.set st t k v ttl k2 = st k2 := by
  simp [Storage.set, h]

/-- A successful `increment` leaves every other key untouched. -/
lemma increment_apply_ne {st st2 : Store} {t : Nat} {k : String} {a r : Int}
    {ttl : Option Nat} (h : Storage.increment st t k a ttl = some (r, st2))
    {k2 : String} (hne : k2 ≠ k) : st2 k2 = st k2 := by
  unfold Storage.increment at h
  cases hg : Storage.get st t k with
  | none =>
    rw [hg] at h
    simp only [Option.some.injEq, Prod.mk.injEq] at h
    rw [← h.2]
    exact set_apply_ne st t k (.int a) ttl hne
  | some v =>
    cases v with
    | int n =>
      rw [hg] at h
      simp only [Option.some.injEq, Prod.mk.injEq] at h
      rw [← h.2]
      simp [hne]
    | ban reason ts => rw [hg] at h; exact absurd h (by simp)

/-- The abstract state of one counter key for minute bucket `mb`: the key is
either absent with count zero, or holds the integer `n` with an expiry no
earlier than the end of the bucket. -/
def CounterIs (mb : Nat) (st : Store) (k : String) (n : Int) : Prop :=
  (st k = none ∧ n = 0) ∨
    (∃ d, st k = some ⟨.int n, some d⟩ ∧ (mb + 1) * 60 ≤ d)

/-- Reading a counter in state `CounterIs mb _ _ n` during bucket `mb`
yields `n` (through the Python `or 0`). -/
lemma counterVal_get_of_counterIs {mb : Nat} {st : Store} {k : String}
    {n : Int} (h : CounterIs mb st k n) {t : Nat} (ht : t / 60 = mb) :
    counterVal (Storage.get st t k) = some n := by
  have htlt : t < (mb + 1) * 60 := by omega
  rcases h with ⟨hnone, hn⟩ | ⟨d, hsome, hd⟩
  · rw [get_of_none t hnone, hn]; rfl
  · rw [get_of_live hsome (lt_of_lt_of_le htlt hd)]; rfl

/-- Incrementing a counter in state `CounterIs mb _ _ n` during bucket `mb`
with a TTL of at least 60 seconds succeeds, returns `n + 1`, moves the key to
state `CounterIs mb _ _ (n + 1)` and leaves all other keys untouched. -/
lemma increment_counter_spec {mb : Nat} {st : Store} {k : String} {n : Int}
    (h : CounterIs mb st k n) {t : Nat} (ht : t / 60 = mb) {ttl : Nat}
    (httl : 60 ≤ ttl) :
    ∃ st2, Storage.increment st t k 1 (some ttl) = some (n + 1, st2) ∧
      (∃ d2, st2 k = some ⟨.int (n + 1), some d2⟩ ∧ (mb + 1) * 60 ≤ d2) ∧
      ∀ k2, k2 ≠ k → st2 k2 = st k2 := by
  have htlt : t < (mb + 1) * 60 := by omega
  have htge : mb * 60 ≤ t := by omega
  rcases h with ⟨hnone, hn⟩ | ⟨d, hsome, hd⟩
  · refine ⟨Storage.set st t k (.int 1) (some ttl), ?_, ⟨t + ttl, ?_, ?_⟩, ?_⟩
    · rw [show n + 1 = 1 by omega]
      simp [Storage.increment, get_of_none t hnone]
    · rw [show n + 1 = 1 by omega]
      simp [Storage.set]
    · omega
    · intro k2 hne; exact set_apply_ne st t k (.int 1) (some ttl) hne
  · have hget := get_of_live hsome (lt_of_lt_of_le htlt hd)
    refine ⟨fun k2 => if k2 = k then some ⟨.int (n + 1), some d⟩ else st k2,
      ?_, ⟨d, by simp, hd⟩, ?_⟩
    · simp [Storage.increment, hget, hsome]
    · intro k2 hne; simp [hne]


/-! ## Claim C1: N+B allowed calls, then denial -/

/-- Exact state of the window and burst counters after `k` allowed calls in
minute bucket `mb`, starting from the empty store: the window counter is at
`k`, the burst counter at `max 0 (k - requests_per_minute)`, and no other key
exists. -/
def c1Inv (rl : RateLimiter) (identifier : String) (path : Option String)
    (mb : Nat) (k : Nat) (st : Store) : Prop :=
  CounterIs mb st (windowKeyStr identifier (pathSuffix path) mb) (k : Int) ∧
  CounterIs mb st (burstKeyStr identifier (pathSuffix path))
    (max 0 ((k : Int) - (resolvedConfig rl path).requests_per_minute)) ∧
  (∀ k2, k2 ≠ windowKeyStr identifier (pathSuffix path) mb →
    k2 ≠ burstKeyStr identifier (pathSuffix path) → st k2 = none)

/-- One `check_limit` call below the combined window+burst capacity is
allowed and advances the `c1Inv` state by one. -/
lemma c1_step (rl : RateLimiter) (identifier : String) (path : Option String)
    (mb k t : Nat) (st : Store)
    (hen : (resolvedConfig rl path).enabled = true)
    (hk : (k : Int) < (resolvedConfig rl path).requests_per_minute +
      (resolvedConfig rl path).burst_size)
    (ht : t / 60 = mb)
    (hinv : c1Inv rl identifier path mb k st) :
    ∃ v st2 ops, checkLimit rl identifier path t st = some (v, st2, ops) ∧
      v.allowed = true ∧ c1Inv rl identifier path mb (k + 1) st2 := by
  obtain ⟨hw, hb, hrest⟩ := hinv
  set N := (resolvedConfig rl path).requests_per_minute with hNdef
  set B := (resolvedConfig rl path).burst_size with hBdef
  set wk := windowKeyStr identifier (pathSuffix path) mb with hwkdef
  set bk := burstKeyStr identifier (pathSuffix path) with hbkdef
  have hwb : wk ≠ bk := windowKey_ne_burstKey identifier (pathSuffix path) mb
  have hcount := counterVal_get_of_counterIs hw ht
  by_cases hNk : (k : Int) ≥ N
  · -- burst-consumption path
    have hbval : max 0 ((k : Int) - N) = (k : Int) - N := by omega
    rw [hbval] at hb
    have hbc := counterVal_get_of_counterIs hb ht
    have hnotB : ¬ ((k : Int) - N ≥ B) := by omega
    obtain ⟨st1, hincrb, hb1, hframe1⟩ :=
      increment_counter_spec hb ht (by norm_num : (60:Nat) ≤ 3600)
    have hw1 : CounterIs mb st1 wk (k : Int) := by
      rcases hw with ⟨hnone, hn⟩ | ⟨d, hsome, hd⟩
      · exact Or.inl ⟨by rw [hframe1 wk hwb]; exact hnone, hn⟩
      · exact Or.inr ⟨d, by rw [hframe1 wk hwb]; exact hsome, hd⟩
    obtain ⟨st2, hincrw, hw2, hframe2⟩ :=
      increment_counter_spec hw1 ht (le_refl 60)
    refine ⟨⟨true, max 0 (N - ((k : Int) + 1)), ((mb + 1) * 60 : Nat), none⟩,
      st2, [.get wk, .get bk, .incr bk 1 (some 3600), .incr wk 1 (some 60)],
      ?_, rfl, ?_, ?_, ?_⟩
    · simp only [checkLimit, ht, hen, not_true_eq_false, if_false, ← hwkdef,
        ← hbkdef, ← hNdef, ← hBdef, hcount, hincrb, hincrw, hbc,
        if_pos hNk]
      rw [if_neg hnotB]
    · obtain ⟨d2, hst2, hd2⟩ := hw2
      refine Or.inr ⟨d2, ?_, hd2⟩
      rw [hst2]; push_cast; ring_nf
    · obtain ⟨d2, hst1, hd2⟩ := hb1
      refine Or.inr ⟨d2, ?_, hd2⟩
      rw [hframe2 bk (Ne.symm hwb), hst1]
      have : max 0 (((k:Nat) + 1 : Nat) - N) = (k : Int) - N + 1 := by push_cast; omega
      rw [this]
    · intro k2 h1 h2
      rw [hframe2 k2 h1, hframe1 k2 h2]
      exact hrest k2 h1 h2
  · -- base-window path
    have hltN : (k : Int) < N := by omega
    obtain ⟨st1, hincrw, hw1, hframe1⟩ := increment_counter_spec hw ht (le_refl 60)
    refine ⟨⟨true, max 0 (N - ((k : Int) + 1)), ((mb + 1) * 60 : Nat), none⟩,
      st1, [.get wk, .incr wk 1 (some 60)], ?_, rfl, ?_, ?_, ?_⟩
    · simp only [checkLimit, ht, hen, not_true_eq_false, if_false, ← hwkdef,
        ← hNdef, hcount, hincrw, if_neg hNk]
    · obtain ⟨d2, hst1, hd2⟩ := hw1
      refine Or.inr ⟨d2, ?_, hd2⟩
      rw [hst1]; push_cast; ring_nf
    · have heq : max 0 (((k:Nat) + 1 : Nat) - N) = max 0 ((k : Int) - N) := by
        push_cast; omega
      rw [heq]
      rcases hb with ⟨hnone, hn⟩ | ⟨d, hsome, hd⟩
      · exact Or.inl ⟨by rw [hframe1 bk (Ne.symm hwb)]; exact hnone, hn⟩
      · exact Or.inr ⟨d, by rw [hframe1 bk (Ne.symm hwb)]; exact hsome, hd⟩
    · intro k2 h1 h2
      rw [hframe1 k2 h1]
      exact hrest k2 h1 h2

/-- A `check_limit` call with the window at or above `requests_per_minute`
and the burst counter at or above `burst_size` is denied. -/
lemma c1_deny (rl : RateLimiter) (identifier : String) (path : Option String)
    (mb k t : Nat) (st : Store)
    (hen : (resolvedConfig rl path).enabled = true)
    (hNk : (k : Int) ≥ (resolvedConfig rl path).requests_per_minute)
    (hBk : max 0 ((k : Int) - (resolvedConfig rl path).requests_per_minute) ≥
      (resolvedConfig rl path).burst_size)
    (ht : t / 60 = mb)
    (hinv : c1Inv rl identifier path mb k st) :
    ∃ v st2 ops, checkLimit rl identifier path t st = some (v, st2, ops) ∧
      v.allowed = false := by
  obtain ⟨hw, hb, hrest⟩ := hinv
  set N := (resolvedConfig rl path).requests_per_minute with hNdef
  set B := (resolvedConfig rl path).burst_size with hBdef
  set wk := windowKeyStr identifier (pathSuffix path) mb with hwkdef
  set bk := burstKeyStr identifier (pathSuffix path) with hbkdef
  set vk := violationKeyStr identifier (pathSuffix path) with hvkdef
  have hcount := counterVal_get_of_counterIs hw ht
  have hbc := counterVal_get_of_counterIs hb ht
  have hvnone : st vk = none :=
    hrest vk (Ne.symm (windowKey_ne_violationKey identifier (pathSuffix path) mb))
      (Ne.symm (burstKey_ne_violationKey identifier (pathSuffix path)))
  have hvCounter : CounterIs mb st vk 0 := Or.inl ⟨hvnone, rfl⟩
  by_cases hthr : (resolvedConfig rl path).auto_ban_threshold > 0
  · obtain ⟨st1, hincrv, hv1, hframev⟩ :=
      increment_counter_spec hvCounter ht (by norm_num : (60:Nat) ≤ 86400)
    rw [show (0 : Int) + 1 = 1 by ring] at hincrv
    by_cases hban : (1 : Int) ≥ (resolvedConfig rl path).auto_ban_threshold
    · refine ⟨⟨false, 0, ((mb + 1) * 60 : Nat),
        some ("Rate limit exceeded for " ++ pathOrGlobal path)⟩,
        Storage.set st1 t (banKeyStr identifier)
          (.ban ("Rate limit exceeded for " ++ pathOrGlobal path) t)
          (some ((resolvedConfig rl path).auto_ban_duration_minutes * 60).toNat),
        [.get wk, .get bk, .incr vk 1 (some 86400),
         .set (banKeyStr identifier)
           (.ban ("Rate limit exceeded for " ++ pathOrGlobal path) t)
           (some ((resolvedConfig rl path).auto_ban_duration_minutes * 60).toNat)],
        ?_, rfl⟩
      simp only [checkLimit, ht, hen, not_true_eq_false, if_false, ← hwkdef,
        ← hbkdef, ← hvkdef, ← hNdef, ← hBdef, hcount, hbc, if_pos hNk,
        if_pos hBk, if_pos hthr, hincrv, if_pos hban]
    · refine ⟨⟨false, 0, ((mb + 1) * 60 : Nat),
        some ("Rate limit exceeded for " ++ pathOrGlobal path)⟩, st1,
        [.get wk, .get bk, .incr vk 1 (some 86400)], ?_, rfl⟩
      simp only [checkLimit, ht, hen, not_true_eq_false, if_false, ← hwkdef,
        ← hbkdef, ← hvkdef, ← hNdef, ← hBdef, hcount, hbc, if_pos hNk,
        if_pos hBk, if_pos hthr, hincrv, if_neg hban]
  · refine ⟨⟨false, 0, ((mb + 1) * 60 : Nat),
      some ("Rate limit exceeded for " ++ pathOrGlobal path)⟩, st,
      [.get wk, .get bk], ?_, rfl⟩
    simp only [checkLimit, ht, hen, not_true_eq_false, if_false, ← hwkdef,
      ← hbkdef, ← hNdef, ← hBdef, hcount, hbc, if_pos hNk, if_pos hBk,
      if_neg hthr]

/-- `runSeq` splits over list append. -/
lemma runSeq_append (rl : RateLimiter) (identifier : String)
    (path : Option String) (l1 l2 : List Nat) (st : Store) :
    runSeq rl identifier path (l1 ++ l2) st =
      match runSeq rl identifier path l1 st with
      | none => none
      | some (st1, vs1) =>
        match runSeq rl identifier path l2 st1 with
        | none => none
        | some (st2, vs2) => some (st2, vs1 ++ vs2) := by
  induction l1 generalizing st with
  | nil =>
    simp only [List.nil_append, runSeq]
    cases h : runSeq rl identifier path l2 st <;> simp
  | cons t l1 ih =>
    rw [show (t :: l1) ++ l2 = t :: (l1 ++ l2) from rfl]
    simp only [runSeq]
    cases hc : checkLimit rl identifier path t st with
    | none => rfl
    | some r =>
      obtain ⟨v, st1, ops⟩ := r
      dsimp only
      rw [ih st1]
      cases h1 : runSeq rl identifier path l1 st1 with
      | none => rfl
      | some r1 =>
        obtain ⟨st2, vs1⟩ := r1
        dsimp only
        cases h2 : runSeq rl identifier path l2 st2 <;> rfl

/-- Any sequence of calls that stays within the combined capacity is fully
allowed and advances `c1Inv` by its length. -/
lemma c1_run (rl : RateLimiter) (identifier : String) (path : Option String)
    (mb : Nat) (hen : (resolvedConfig rl path).enabled = true) :
    ∀ (ts : List Nat) (k : Nat) (st : Store),
      c1Inv rl identifier path mb k st → (∀ t ∈ ts, t / 60 = mb) →
      (k : Int) + ts.length ≤ (resolvedConfig rl path).requests_per_minute +
        (resolvedConfig rl path).burst_size →
      ∃ st2 vs, runSeq rl identifier path ts st = some (st2, vs) ∧
        vs.length = ts.length ∧ (∀ v ∈ vs, v.allowed = true) ∧
        c1Inv rl identifier path mb (k + ts.length) st2 := by
  intro ts
  induction ts with
  | nil =>
    intro k st hinv hts hbound
    exact ⟨st, [], rfl, rfl, by simp, by simpa using hinv⟩
  | cons t ts ih =>
    intro k st hinv hts hbound
    have hklt : (k : Int) < (resolvedConfig rl path).requests_per_minute +
        (resolvedConfig rl path).burst_size := by
      simp only [List.length_cons] at hbound
      push_cast at hbound ⊢
      omega
    obtain ⟨v, st1, ops, hc, hall, hinv1⟩ :=
      c1_step rl identifier path mb k t st hen hklt
        (hts t (List.mem_cons_self t ts)) hinv
    obtain ⟨st2, vs, hrun, hlen, hallvs, hinv2⟩ :=
      ih (k + 1) st1 hinv1 (fun t2 ht2 => hts t2 (List.mem_cons_of_mem t ht2))
        (by simp only [List.length_cons] at hbound; push_cast at hbound ⊢; omega)
    refine ⟨st2, v :: vs, ?_, by simp [hlen], ?_, ?_⟩
    · simp only [runSeq, hc, hrun]
    · intro v2 hv2
      rcases List.mem_cons.mp hv2 with h | h
      · subst h; exact hall
      · exact hallvs v2 h
    · have : k + 1 + ts.length = k + (ts.length + 1) := by omega
      rw [this] at hinv2
      simpa using hinv2

/-- C1: for every identifier and every enabled rate-limit rule with
`requests_per_minute = N` and `burst_size = B`, a sequence of `N + B + 1`
sequential `check_limit` calls with the same identifier and path, all in the
same 60-second minute bucket and starting from an empty store, is allowed on
calls `1 .. N + B` and denied on call `N + B + 1`. -/
theorem claim1_window_plus_burst_exhaustion (rl : RateLimiter) (identifier : String) (path : Option String)
    (mb : Nat) (ts : List Nat) (N B : Nat)
    (hen : (resolvedConfig rl path).enabled = true)
    (hN : (resolvedConfig rl path).requests_per_minute = (N : Int))
    (hB : (resolvedConfig rl path).burst_size = (B : Int))
    (hts : ∀ t ∈ ts, t / 60 = mb)
    (hlen : ts.length = N + B + 1) :
    ∃ st2 vs, runSeq rl identifier path ts emptyStore = some (st2, vs) ∧
      vs.length = N + B + 1 ∧
      (∀ i, i < N + B → ∃ v, vs[i]? = some v ∧ v.allowed = true) ∧
      (∃ v, vs[N + B]? = some v ∧ v.allowed = false) := by
  have hne : ts ≠ [] := by
    intro h; rw [h] at hlen; simp at hlen
  have hsplit : ts.dropLast ++ [ts.getLast hne] = ts :=
    List.dropLast_append_getLast hne
  have hlen1 : ts.dropLast.length = N + B := by
    rw [List.length_dropLast, hlen]
    omega
  have hinv0 : c1Inv rl identifier path mb 0 emptyStore := by
    refine ⟨Or.inl ⟨rfl, rfl⟩, Or.inl ⟨rfl, ?_⟩, fun _ _ _ => rfl⟩
    rw [hN]; push_cast; omega
  obtain ⟨st2, vs1, hrun1, hlenvs, hall, hinv1⟩ :=
    c1_run rl identifier path mb hen ts.dropLast 0 emptyStore hinv0
      (fun t htl => hts t (by rw [← hsplit]; exact List.mem_append_left _ htl))
      (by rw [hN, hB, hlen1]; push_cast; omega)
  rw [zero_add, hlen1] at hinv1
  obtain ⟨vden, stF, opsF, hcden, hdenied⟩ :=
    c1_deny rl identifier path mb (N + B) (ts.getLast hne) st2 hen
      (by rw [hN]; push_cast; omega)
      (by rw [hN, hB]; push_cast; omega)
      (hts (ts.getLast hne) (List.getLast_mem hne)) hinv1
  refine ⟨stF, vs1 ++ [vden], ?_, ?_, ?_, ?_⟩
  · conv_lhs => rw [← hsplit]
    rw [runSeq_append, hrun1]
    simp only [runSeq, hcden]
  · simp [hlenvs, hlen1]
  · intro i hi
    have hiv : i < vs1.length := by rw [hlenvs, hlen1]; exact hi
    rw [List.getElem?_append, if_pos hiv, List.getElem?_eq_getElem hiv]
    exact ⟨vs1[i], rfl, hall _ (List.getElem_mem hiv)⟩
  · have hige : vs1.length ≤ N + B := by rw [hlenvs, hlen1]
    rw [List.getElem?_append_right hige]
    rw [show N + B - vs1.length = 0 by omega]
    exact ⟨vden, rfl, hdenied⟩

/-- Witness for C1 at a concrete rule (`N = 1`, `B = 1`) and three calls in
minute bucket 0. -/
theorem claim1_witness :
    ∃ st2 vs,
      runSeq ⟨⟨true, 1, 1, 0, 10⟩, []⟩ "203.0.113.7" (some "/api") [0, 1, 2]
        emptyStore = some (st2, vs) ∧
      vs.length = 1 + 1 + 1 ∧
      (∀ i, i < 1 + 1 → ∃ v, vs[i]? = some v ∧ v.allowed = true) ∧
      (∃ v, vs[1 + 1]? = some v ∧ v.allowed = false) :=
  claim1_window_plus_burst_exhaustion ⟨⟨true, 1, 1, 0, 10⟩, []⟩ "203.0.113.7"
    (some "/api") 0 [0, 1, 2] 1 1 rfl rfl rfl (by decide) rfl


/-! ## Claims C4, C5, C7, C8, C10 -/

/-- The route-matching contract as the spec states it (§4.1): `"*"` matches
everything; a pattern ending in `"/**"` matches any path that the pattern
minus the trailing `"/**"` is a string prefix of; a pattern ending in `"/*"`
matches iff the path starts with the pattern minus the trailing `"/*"` and
the remainder is empty or a single `"/"`-delimited segment; otherwise exact
equality. -/
def RouteMatchSpec (pattern path : String) : Prop :=
  if pattern = "*" then True
  else if "/**".data <:+ pattern.data then
    ∃ pre, pattern.data = pre ++ "/**".data ∧ pre <+: path.data
  else if "/*".data <:+ pattern.data then
    ∃ pre, pattern.data = pre ++ "/*".data ∧ pre <+: path.data ∧
      (path.data.drop pre.length = [] ∨
        ∃ seg, path.data.drop pre.length = '/' :: seg ∧ '/' ∉ seg)
  else pattern = path

/-- The implementation's wildcard matcher agrees with the spec's contract on
every pattern and path. -/
theorem matchIff (pattern path : String) :
    matchRoutePattern pattern path = true ↔ RouteMatchSpec pattern path := by
  unfold matchRoutePattern RouteMatchSpec
  by_cases hstar : pattern = "*"
  · simp [hstar]
  · simp only [hstar, if_false]
    by_cases hds : "/**".data <:+ pattern.data
    · have hsuf : List.isSuffixOf "/**".data pattern.data = true := by
        rwa [List.isSuffixOf_iff_suffix]
      rw [if_pos hds, if_pos hsuf]
      obtain ⟨pre, hpre⟩ := hds
      have htake : pattern.data.take (pattern.data.length - 3) = pre := by
        rw [← hpre]
        rw [show (pre ++ "/**".data).length - 3 = pre.length by simp]
        exact List.take_left pre _
      simp only [htake]
      constructor
      · intro h
        exact ⟨pre, hpre.symm, List.isPrefixOf_iff_prefix.mp h⟩
      · rintro ⟨pre2, hp2, hp2pre⟩
        have hpp : pre2 = pre := by
          have : pre2 ++ "/**".data = pre ++ "/**".data := by rw [← hp2, hpre]
          exact List.append_cancel_right this
        rw [List.isPrefixOf_iff_prefix]
        rw [← hpp]; exact hp2pre
    · have hsuf3 : List.isSuffixOf "/**".data pattern.data = false := by
        rw [← Bool.not_eq_true, List.isSuffixOf_iff_suffix]; exact hds
      rw [if_neg hds]
      simp only [hsuf3, Bool.false_eq_true, if_false]
      by_cases hds2 : "/*".data <:+ pattern.data
      · have hsuf2 : List.isSuffixOf "/*".data pattern.data = true := by
          rwa [List.isSuffixOf_iff_suffix]
        rw [if_pos hds2]
        simp only [hsuf2, if_true]
        obtain ⟨pre, hpre⟩ := hds2
        have htake : pattern.data.take (pattern.data.length - 2) = pre := by
          rw [← hpre]
          rw [show (pre ++ "/*".data).length - 2 = pre.length by simp]
          exact List.take_left pre _
        simp only [htake]
        by_cases hp : pre <+: path.data
        · have hpb : List.isPrefixOf pre path.data = true := by
            rwa [List.isPrefixOf_iff_prefix]
          simp only [hpb, not_true_eq_false, Bool.false_eq_true, if_false,
            decide_eq_true_eq]
          constructor
          · rintro (hrem | ⟨hpref, hnc⟩)
            · exact ⟨pre, hpre.symm, hp, Or.inl hrem⟩
            · obtain ⟨seg, hseg⟩ := List.isPrefixOf_iff_prefix.mp hpref
              refine ⟨pre, hpre.symm, hp, Or.inr ⟨seg, hseg.symm, ?_⟩⟩
              intro hmem
              apply hnc
              have hsd : (path.data.drop pre.length).drop 1 = seg := by
                rw [← hseg]
                simp
              rw [hsd]
              unfold List.contains
              exact List.elem_iff.mpr hmem
          · rintro ⟨pre2, hp2, hp2pre, hrem⟩
            have hpp : pre2 = pre := by
              have heq2 : pre2 ++ "/*".data = pre ++ "/*".data := by
                rw [← hp2, hpre]
              exact List.append_cancel_right heq2
            subst hpp
            rcases hrem with hrem | ⟨seg, hseg, hnmem⟩
            · exact Or.inl hrem
            · refine Or.inr ⟨List.isPrefixOf_iff_prefix.mpr ⟨seg, ?_⟩, ?_⟩
              · rw [hseg]; rfl
              · intro hcont
                apply hnmem
                have hsd : (path.data.drop pre2.length).drop 1 = seg := by
                  rw [hseg]
                  simp
                rw [hsd] at hcont
                unfold List.contains at hcont
                exact List.elem_iff.mp hcont
        · have hpb : List.isPrefixOf pre path.data = false := by
            rw [← Bool.not_eq_true, List.isPrefixOf_iff_prefix]; exact hp
          simp only [hpb, Bool.false_eq_true, not_false_eq_true, if_true,
            Bool.false_eq_true, false_iff]
          rintro ⟨pre2, hp2, hp2pre, hrem⟩
          have hpp : pre2 = pre := by
            have heq2 : pre2 ++ "/*".data = pre ++ "/*".data := by
              rw [← hp2, hpre]
            exact List.append_cancel_right heq2
          rw [hpp] at hp2pre
          exact hp hp2pre
      · have hsuf2 : List.isSuffixOf "/*".data pattern.data = false := by
          rw [← Bool.not_eq_true, List.isSuffixOf_iff_suffix]; exact hds2
        rw [if_neg hds2]
        simp only [hsuf2, Bool.false_eq_true, if_false, decide_eq_true_eq]

/-- C4: the route matcher implements exactly the spec's four-case contract,
and in particular `"/api/uploads/*"` matches `"/api/uploads/files"` but not
`"/api/uploads/files/extra"`, while `"/api/admin/**"` matches both
`"/api/admin/dashboard"` and `"/api/admin/users/list"`. -/
theorem claim4_route_pattern_matching :
    (∀ pattern path, matchRoutePattern pattern path = true ↔
      RouteMatchSpec pattern path) ∧
    matchRoutePattern "/api/uploads/*" "/api/uploads/files" = true ∧
    matchRoutePattern "/api/uploads/*" "/api/uploads/files/extra" = false ∧
    matchRoutePattern "/api/admin/**" "/api/admin/dashboard" = true ∧
    matchRoutePattern "/api/admin/**" "/api/admin/users/list" = true :=
  ⟨matchIff, by decide, by decide, by decide, by decide⟩

/-- C5: rule resolution returns the rule bound to a pattern exactly equal to
the path when one exists, else the rule of the first registered pattern whose
wildcard form matches, else the default rule; exact match beats an
earlier-registered wildcard, as in the spec's
`{"/api/admin/**": ruleA, "/api/admin/x": ruleB}` example. -/
theorem claim5_route_resolution :
    (∀ (rl : RateLimiter) (path : String),
      (∀ c, lookupRoute rl.routeConfigs path = some c →
        getConfigForRoute rl path = c) ∧
      (lookupRoute rl.routeConfigs path = none →
        ∀ c, firstMatchingRoute rl.routeConfigs path = some c →
          getConfigForRoute rl path = c) ∧
      (lookupRoute rl.routeConfigs path = none →
        firstMatchingRoute rl.routeConfigs path = none →
        getConfigForRoute rl path = rl.config)) ∧
    (∀ ruleA ruleB d : RateLimitConfig,
      getConfigForRoute ⟨d, [("/api/admin/**", ruleA), ("/api/admin/x", ruleB)]⟩
        "/api/admin/x" = ruleB ∧
      getConfigForRoute ⟨d, [("/api/admin/**", ruleA), ("/api/admin/x", ruleB)]⟩
        "/api/admin/y" = ruleA) := by
  constructor
  · intro rl path
    refine ⟨?_, ?_, ?_⟩
    · intro c h; simp [getConfigForRoute, h]
    · intro h c h2; simp [getConfigForRoute, h, h2]
    · intro h h2; simp [getConfigForRoute, h, h2]
  · intro ruleA ruleB d
    exact ⟨rfl, rfl⟩

/-- C7: for every identifier, path, store state and current time, the
blocking `RateLimiter.check_limit` and the suspendable
`AsyncRateLimiter.check_limit` built from the same configuration return the
same verdict, the same final store, and the same trace of storage
operations. -/
theorem claim7_sync_async_equivalence (c : RateLimitConfig) (r : List (String × RateLimitConfig))
    (identifier : String) (path : Option String) (t : Nat) (st : Store) :
    asyncCheckLimit ⟨c, r⟩ identifier path t st =
      checkLimit ⟨c, r⟩ identifier path t st := by
  have hm : asyncMatchRoutePattern = matchRoutePattern := rfl
  have hf : asyncFirstMatchingRoute = firstMatchingRoute := by
    funext l p
    induction l with
    | nil => rfl
    | cons hd tl ih =>
      simp [asyncFirstMatchingRoute, firstMatchingRoute, hm, ih]
  have hr : asyncResolvedConfig ⟨c, r⟩ path = resolvedConfig ⟨c, r⟩ path := by
    cases path <;>
      simp [asyncResolvedConfig, resolvedConfig, asyncGetConfigForRoute,
        getConfigForRoute, hf]
  unfold asyncCheckLimit checkLimit
  rw [hr]

/-- C8: when the resolved rule is disabled, `check_limit` returns
`{allowed: true, remaining: -1, reset: -1}`, leaves the store untouched, and
performs no storage operation at all. -/
theorem claim8_disabled_bypass (rl : RateLimiter) (identifier : String)
    (path : Option String) (t : Nat) (st : Store)
    (h : (resolvedConfig rl path).enabled = false) :
    checkLimit rl identifier path t st = some (⟨true, -1, -1, none⟩, st, []) := by
  simp [checkLimit, h]

/-- Witness for C8 at a concrete disabled rule. -/
theorem claim8_witness :
    checkLimit ⟨⟨false, 5, 2, 0, 10⟩, []⟩ "203.0.113.7" (some "/api") 100
      emptyStore = some (⟨true, -1, -1, none⟩, emptyStore, []) :=
  claim8_disabled_bypass ⟨⟨false, 5, 2, 0, 10⟩, []⟩ "203.0.113.7" (some "/api") 100
    emptyStore rfl

/-- C10: a call with the empty string as path behaves exactly like a
path-less call against the config that route resolution produces for `""`:
resolution still runs (the path is not `None`), while the storage keys use
the global scope (`pathSuffix` is empty, the empty string being falsy) and
any denial reason uses the literal word `"global"`. -/
theorem claim10_empty_path_global (rl : RateLimiter) (identifier : String) (t : Nat)
    (st : Store) :
    checkLimit rl identifier (some "") t st =
      checkLimit ⟨getConfigForRoute rl "", []⟩ identifier none t st ∧
    pathSuffix (some "") = "" ∧ pathOrGlobal (some "") = "global" := by
  refine ⟨?_, rfl, rfl⟩
  rfl


/-! ## Claims C2, C3, C9: the denial branch -/

/-- A successful counter increment returns the old `or 0` value plus one. -/
lemma increment_counterVal {st : Store} {t : Nat} {k : String} {r : Int}
    {st1 : Store} {ttl : Option Nat}
    (h : Storage.increment st t k 1 ttl = some (r, st1)) :
    ∃ n, counterVal (Storage.get st t k) = some n ∧ r = n + 1 := by
  unfold Storage.increment at h
  cases hg : Storage.get st t k with
  | none =>
    rw [hg] at h
    simp only [Option.some.injEq, Prod.mk.injEq] at h
    exact ⟨0, by simp [counterVal], by omega⟩
  | some val =>
    cases val with
    | int n =>
      rw [hg] at h
      simp only [Option.some.injEq, Prod.mk.injEq] at h
      exact ⟨n, by simp [counterVal], h.1.symm⟩
    | ban reason ts =>
      rw [hg] at h
      exact absurd h (by simp)

/-- Full characterisation of a denied `check_limit` call: the rule was
enabled, the verdict carries the `"Rate limit exceeded"` reason, and the
store/trace are exactly one of the three denial shapes (no bookkeeping,
violation increment only, or violation increment plus ban write). -/
lemma checkLimit_denied_cases (rl : RateLimiter) (identifier : String)
    (path : Option String) (t : Nat) (st : Store) (v : Verdict) (st2 : Store)
    (ops : List Op)
    (h : checkLimit rl identifier path t st = some (v, st2, ops))
    (hdenied : v.allowed = false) :
    (resolvedConfig rl path).enabled = true ∧
    v = ⟨false, 0, ((t / 60 + 1) * 60 : Nat),
      some ("Rate limit exceeded for " ++ pathOrGlobal path)⟩ ∧
    (((resolvedConfig rl path).auto_ban_threshold ≤ 0 ∧ st2 = st ∧
        ops = [.get (windowKeyStr identifier (pathSuffix path) (t / 60)),
          .get (burstKeyStr identifier (pathSuffix path))]) ∨
      (0 < (resolvedConfig rl path).auto_ban_threshold ∧ ∃ n st1,
        counterVal (Storage.get st t
          (violationKeyStr identifier (pathSuffix path))) = some n ∧
        Storage.increment st t (violationKeyStr identifier (pathSuffix path))
          1 (some 86400) = some (n + 1, st1) ∧
        ((n + 1 ≥ (resolvedConfig rl path).auto_ban_threshold ∧
            st2 = Storage.set st1 t (banKeyStr identifier)
              (.ban ("Rate limit exceeded for " ++ pathOrGlobal path) t)
              (some ((resolvedConfig rl path).auto_ban_duration_minutes * 60).toNat) ∧
            ops = [.get (windowKeyStr identifier (pathSuffix path) (t / 60)),
              .get (burstKeyStr identifier (pathSuffix path)),
              .incr (violationKeyStr identifier (pathSuffix path)) 1 (some 86400),
              .set (banKeyStr identifier)
                (.ban ("Rate limit exceeded for " ++ pathOrGlobal path) t)
                (some ((resolvedConfig rl path).auto_ban_duration_minutes * 60).toNat)]) ∨
          (n + 1 < (resolvedConfig rl path).auto_ban_threshold ∧ st2 = st1 ∧
            ops = [.get (windowKeyStr identifier (pathSuffix path) (t / 60)),
              .get (burstKeyStr identifier (pathSuffix path)),
              .incr (violationKeyStr identifier (pathSuffix path)) 1
                (some 86400)])))) := by
  simp only [checkLimit] at h
  split at h
  · -- disabled: the returned verdict is allowed, contradiction
    exfalso
    simp only [Option.some.injEq, Prod.mk.injEq] at h
    rw [← h.1] at hdenied
    simp at hdenied
  · next hcond =>
    have hen : (resolvedConfig rl path).enabled = true := by
      by_contra hne
      exact hcond (by simpa using hne)
    refine ⟨hen, ?_⟩
    split at h
    · exact absurd h (by simp)
    · next count hw =>
      split at h
      · next hgeN =>
        split at h
        · exact absurd h (by simp)
        · next burstCount hbget =>
          split at h
          · next hgeB =>
            split at h
            · next hthr =>
              split at h
              · exact absurd h (by simp)
              · next violations st1 hvi =>
                obtain ⟨n, hn, hr⟩ := increment_counterVal hvi
                subst hr
                split at h
                · next hban =>
                  simp only [Option.some.injEq, Prod.mk.injEq] at h
                  obtain ⟨hv, hst, hops⟩ := h
                  refine ⟨hv.symm, Or.inr ⟨hthr, n, st1, hn, hvi, Or.inl
                    ⟨hban, hst.symm, hops.symm⟩⟩⟩
                · next hban =>
                  simp only [Option.some.injEq, Prod.mk.injEq] at h
                  obtain ⟨hv, hst, hops⟩ := h
                  refine ⟨hv.symm, Or.inr ⟨hthr, n, st1, hn, hvi, Or.inr
                    ⟨by omega, hst.symm, hops.symm⟩⟩⟩
            · next hthr =>
              simp only [Option.some.injEq, Prod.mk.injEq] at h
              obtain ⟨hv, hst, hops⟩ := h
              exact ⟨hv.symm, Or.inl ⟨by omega, hst.symm, hops.symm⟩⟩
          · -- burst available: allowed, contradiction
            exfalso
            split at h
            · exact absurd h (by simp)
            · next hi1 =>
              split at h
              · exact absurd h (by simp)
              · next hi2 =>
                simp only [Option.some.injEq, Prod.mk.injEq] at h
                rw [← h.1] at hdenied
                simp at hdenied
      · -- below the base rate: allowed, contradiction
        exfalso
        split at h
        · exact absurd h (by simp)
        · next hi1 =>
          simp only [Option.some.injEq, Prod.mk.injEq] at h
          rw [← h.1] at hdenied
          simp at hdenied

/-- A `set` to a different key does not change what `get` returns. -/
lemma get_set_ne {st : Store} {t t2 : Nat} {k k2 : String} {v : Val}
    {ttl : Option Nat} (h : k2 ≠ k) :
    Storage.get (Storage.set st t k v ttl) t2 k2 = Storage.get st t2 k2 := by
  unfold Storage.get
  rw [set_apply_ne st t k v ttl h]

/-- After a successful increment with a positive TTL, reading the key at the
same time returns the new value. -/
lemma increment_get_after {st st1 : Store} {t : Nat} {k : String} {r : Int}
    {ttl : Nat} (h : Storage.increment st t k 1 (some ttl) = some (r, st1))
    (hpos : 0 < ttl) :
    counterVal (Storage.get st1 t k) = some r := by
  unfold Storage.increment at h
  cases hg : Storage.get st t k with
  | none =>
    rw [hg] at h
    simp only [Option.some.injEq, Prod.mk.injEq] at h
    rw [← h.2, ← h.1]
    have : Storage.get (Storage.set st t k (.int 1) (some ttl)) t k =
        some (.int 1) := by
      unfold Storage.get
      rw [set_apply_self]
      simp [show t < t + ttl by omega]
    rw [this]; rfl
  | some val =>
    cases val with
    | int n =>
      rw [hg] at h
      simp only [Option.some.injEq, Prod.mk.injEq] at h
      cases hk : st k with
      | none =>
        unfold Storage.get at hg
        rw [hk] at hg
        exact absurd hg (by simp)
      | some e =>
        have hst1k : st1 k = some ⟨.int (n + 1), e.expiry⟩ := by
          rw [← h.2]
          simp [hk]
        have hr : r = n + 1 := h.1.symm
        subst hr
        unfold Storage.get at hg ⊢
        rw [hk] at hg
        dsimp only at hg
        rw [hst1k]
        cases he : e.expiry with
        | none => simp [counterVal]
        | some d =>
          rw [he] at hg
          dsimp only at hg
          by_cases htd : t < d
          · simp [htd, counterVal]
          · rw [if_neg htd] at hg
            exact absurd hg (by simp)
    | ban reason ts =>
      rw [hg] at h
      exact absurd h (by simp)

/-- C9: a denied `check_limit` call leaves the window counter key and the
burst-credit key unchanged, and every write it performs is to the violation
counter key or the ban record key. -/
theorem claim9_denied_frame (rl : RateLimiter) (identifier : String)
    (path : Option String) (t : Nat) (st : Store) (v : Verdict) (st2 : Store)
    (ops : List Op)
    (h : checkLimit rl identifier path t st = some (v, st2, ops))
    (hdenied : v.allowed = false) :
    st2 (windowKeyStr identifier (pathSuffix path) (t / 60)) =
      st (windowKeyStr identifier (pathSuffix path) (t / 60)) ∧
    st2 (burstKeyStr identifier (pathSuffix path)) =
      st (burstKeyStr identifier (pathSuffix path)) ∧
    ∀ op ∈ ops, op.isWrite = true →
      op.key = violationKeyStr identifier (pathSuffix path) ∨
      op.key = banKeyStr identifier := by
  obtain ⟨hen, hv, hcases⟩ :=
    checkLimit_denied_cases rl identifier path t st v st2 ops h hdenied
  rcases hcases with ⟨hthr, hst, hops⟩ | ⟨hthr, n, st1, hn, hvi, hrest⟩
  · subst hst; subst hops
    refine ⟨rfl, rfl, ?_⟩
    intro op hop hw
    fin_cases hop <;> simp [Op.isWrite] at hw
  · have hfw : st1 (windowKeyStr identifier (pathSuffix path) (t / 60)) =
        st (windowKeyStr identifier (pathSuffix path) (t / 60)) :=
      increment_apply_ne hvi
        (Ne.symm (windowKey_ne_violationKey identifier (pathSuffix path) (t / 60))).symm
    have hfb : st1 (burstKeyStr identifier (pathSuffix path)) =
        st (burstKeyStr identifier (pathSuffix path)) :=
      increment_apply_ne hvi
        (burstKey_ne_violationKey identifier (pathSuffix path))
    rcases hrest with ⟨hban, hst, hops⟩ | ⟨hnb, hst, hops⟩
    · subst hst; subst hops
      refine ⟨?_, ?_, ?_⟩
      · rw [set_apply_ne _ _ _ _ _
          (windowKey_ne_banKey identifier (pathSuffix path) (t / 60) identifier)]
        exact hfw
      · rw [set_apply_ne _ _ _ _ _
          (burstKey_ne_banKey identifier (pathSuffix path) identifier)]
        exact hfb
      · intro op hop hw
        fin_cases hop <;> simp_all [Op.isWrite, Op.key]
    · subst hst; subst hops
      refine ⟨hfw, hfb, ?_⟩
      intro op hop hw
      fin_cases hop <;> simp_all [Op.isWrite, Op.key]

/-- Witness for C9: a denied call against a zero-capacity rule on the empty
store (threshold 0, so the store is untouched). -/
theorem claim9_witness :
    emptyStore (windowKeyStr "203.0.113.7" "" 0) =
      emptyStore (windowKeyStr "203.0.113.7" "" 0) ∧
    emptyStore (burstKeyStr "203.0.113.7" "") =
      emptyStore (burstKeyStr "203.0.113.7" "") ∧
    ∀ op ∈ ([.get (windowKeyStr "203.0.113.7" "" 0),
        .get (burstKeyStr "203.0.113.7" "")] : List Op), op.isWrite = true →
      op.key = violationKeyStr "203.0.113.7" "" ∨
      op.key = banKeyStr "203.0.113.7" :=
  claim9_denied_frame ⟨⟨true, 0, 0, 0, 10⟩, []⟩ "203.0.113.7" none 0
    emptyStore ⟨false, 0, 60, some "Rate limit exceeded for global"⟩
    emptyStore
    [.get (windowKeyStr "203.0.113.7" "" 0), .get (burstKeyStr "203.0.113.7" "")]
    rfl rfl

/-- Counterexample to C3 as stated: with `auto_ban_threshold = 0` a call is
denied due to rate-limit exhaustion (`requests_per_minute = 0`,
`burst_size = 0`) yet the final store is still empty — the violation counter
key was not incremented, because the increment is guarded by
`auto_ban_threshold > 0`. -/
theorem claim3_counterexample :
    checkLimit ⟨⟨true, 0, 0, 0, 10⟩, []⟩ "203.0.113.7" none 0 emptyStore =
      some (⟨false, 0, 60, some "Rate limit exceeded for global"⟩, emptyStore,
        [.get (windowKeyStr "203.0.113.7" "" 0),
         .get (burstKeyStr "203.0.113.7" "")]) ∧
    emptyStore (violationKeyStr "203.0.113.7" "") = none :=
  ⟨rfl, rfl⟩

/-- C3 (amended): for every `check_limit` call denied due to rate-limit
exhaustion, *provided the rule has `auto_ban_threshold > 0`*, the violation
counter is incremented by exactly one. -/
theorem claim3_violation_increment (rl : RateLimiter) (identifier : String)
    (path : Option String) (t : Nat) (st : Store) (v : Verdict) (st2 : Store)
    (ops : List Op)
    (h : checkLimit rl identifier path t st = some (v, st2, ops))
    (hdenied : v.allowed = false)
    (hthr : 0 < (resolvedConfig rl path).auto_ban_threshold) :
    ∃ n, counterVal (Storage.get st t
        (violationKeyStr identifier (pathSuffix path))) = some n ∧
      counterVal (Storage.get st2 t
        (violationKeyStr identifier (pathSuffix path))) = some (n + 1) := by
  obtain ⟨hen, hv, hcases⟩ :=
    checkLimit_denied_cases rl identifier path t st v st2 ops h hdenied
  rcases hcases with ⟨hthr2, _, _⟩ | ⟨_, n, st1, hn, hvi, hrest⟩
  · omega
  · have hafter := increment_get_after hvi (by norm_num : (0:Nat) < 86400)
    refine ⟨n, hn, ?_⟩
    rcases hrest with ⟨_, hst, _⟩ | ⟨_, hst, _⟩
    · subst hst
      rw [get_set_ne
        (violationKey_ne_banKey identifier (pathSuffix path) identifier)]
      exact hafter
    · subst hst
      exact hafter

/-- Witness for the amended C3 at a concrete rule with threshold 5. -/
theorem claim3_witness :
    ∃ n, counterVal (Storage.get emptyStore 0
        (violationKeyStr "203.0.113.7" "")) = some n ∧
      counterVal (Storage.get
        (Storage.set emptyStore 0 (violationKeyStr "203.0.113.7" "")
          (.int 1) (some 86400)) 0
        (violationKeyStr "203.0.113.7" "")) = some (n + 1) :=
  claim3_violation_increment ⟨⟨true, 0, 0, 5, 10⟩, []⟩ "203.0.113.7" none 0
    emptyStore ⟨false, 0, 60, some "Rate limit exceeded for global"⟩
    (Storage.set emptyStore 0 (violationKeyStr "203.0.113.7" "") (.int 1)
      (some 86400))
    [.get (windowKeyStr "203.0.113.7" "" 0), .get (burstKeyStr "203.0.113.7" ""),
     .incr (violationKeyStr "203.0.113.7" "") 1 (some 86400)]
    rfl rfl (by decide)

/-- C2: when a denied call has `auto_ban_threshold > 0` and the incremented
violation count reaches the threshold, a ban record is written under
`banned_ip:{identifier}` with reason
`"Rate limit exceeded for {path or 'global'}"` and a TTL equal to the rule's
ban duration expressed in seconds (`auto_ban_duration_seconds`). -/
theorem claim2_auto_ban (rl : RateLimiter) (identifier : String)
    (path : Option String) (t : Nat) (st : Store) (v : Verdict) (st2 : Store)
    (ops : List Op) (n : Int)
    (h : checkLimit rl identifier path t st = some (v, st2, ops))
    (hdenied : v.allowed = false)
    (hthr : 0 < (resolvedConfig rl path).auto_ban_threshold)
    (hn : counterVal (Storage.get st t
      (violationKeyStr identifier (pathSuffix path))) = some n)
    (hreach : (resolvedConfig rl path).auto_ban_threshold ≤ n + 1) :
    st2 (banKeyStr identifier) =
      some ⟨.ban ("Rate limit exceeded for " ++ pathOrGlobal path) t,
        some (t + (resolvedConfig rl path).auto_ban_duration_seconds.toNat)⟩ ∧
    (Op.set (banKeyStr identifier)
      (.ban ("Rate limit exceeded for " ++ pathOrGlobal path) t)
      (some (resolvedConfig rl path).auto_ban_duration_seconds.toNat)) ∈ ops := by
  obtain ⟨hen, hv, hcases⟩ :=
    checkLimit_denied_cases rl identifier path t st v st2 ops h hdenied
  rcases hcases with ⟨hthr2, _, _⟩ | ⟨_, n2, st1, hn2, hvi, hrest⟩
  · omega
  · have hnn : n2 = n := by
      rw [hn] at hn2
      exact Option.some.inj hn2.symm
    subst hnn
    rcases hrest with ⟨hban, hst, hops⟩ | ⟨hnb, _, _⟩
    · subst hst; subst hops
      constructor
      · rw [set_apply_self]
        rfl
      · simp [RateLimitConfig.auto_ban_duration_seconds]
    · omega

/-- Witness for C2: threshold 1, so the first denial writes the ban record
with TTL 600 s (= 10 minutes). -/
theorem claim2_witness :
    (Storage.set
        (Storage.set emptyStore 0 (violationKeyStr "203.0.113.7" "")
          (.int 1) (some 86400)) 0 (banKeyStr "203.0.113.7")
        (.ban "Rate limit exceeded for global" 0) (some 600))
      (banKeyStr "203.0.113.7") =
      some ⟨.ban "Rate limit exceeded for global" 0, some 600⟩ ∧
    (Op.set (banKeyStr "203.0.113.7")
      (.ban "Rate limit exceeded for global" 0) (some 600)) ∈
      ([.get (windowKeyStr "203.0.113.7" "" 0),
        .get (burstKeyStr "203.0.113.7" ""),
        .incr (violationKeyStr "203.0.113.7" "") 1 (some 86400),
        .set (banKeyStr "203.0.113.7")
          (.ban "Rate limit exceeded for global" 0) (some 600)] : List Op) :=
  claim2_auto_ban ⟨⟨true, 0, 0, 1, 10⟩, []⟩ "203.0.113.7" none 0 emptyStore
    ⟨false, 0, 60, some "Rate limit exceeded for global"⟩
    (Storage.set
      (Storage.set emptyStore 0 (violationKeyStr "203.0.113.7" "")
        (.int 1) (some 86400)) 0 (banKeyStr "203.0.113.7")
      (.ban "Rate limit exceeded for global" 0) (some 600))
    [.get (windowKeyStr "203.0.113.7" "" 0),
     .get (burstKeyStr "203.0.113.7" ""),
     .incr (violationKeyStr "203.0.113.7" "") 1 (some 86400),
     .set (banKeyStr "203.0.113.7")
       (.ban "Rate limit exceeded for global" 0) (some 600)]
    0 rfl rfl (by decide) rfl (by decide)


/-! ## Claim C6: the window counter never exceeds N + B -/

/-- `get` only depends on the store's entry at the requested key. -/
lemma get_congr {st1 st2 : Store} {k : String} (t : Nat)
    (h : st1 k = st2 k) : Storage.get st1 t k = Storage.get st2 t k := by
  unfold Storage.get
  rw [h]

/-- Full characterisation of an allowed `check_limit` call: either the rule
is disabled and nothing happens, or the window counter is incremented —
possibly after consuming one unit of burst credit when the base window is
exhausted. -/
lemma checkLimit_allowed_cases (rl : RateLimiter) (identifier : String)
    (path : Option String) (t : Nat) (st : Store) (v : Verdict) (st2 : Store)
    (ops : List Op)
    (h : checkLimit rl identifier path t st = some (v, st2, ops))
    (hallowed : v.allowed = true) :
    ((resolvedConfig rl path).enabled = false ∧ st2 = st ∧ ops = []) ∨
    ((resolvedConfig rl path).enabled = true ∧
      ∃ count, counterVal (Storage.get st t
        (windowKeyStr identifier (pathSuffix path) (t / 60))) = some count ∧
      ((¬ count ≥ (resolvedConfig rl path).requests_per_minute ∧
          Storage.increment st t
            (windowKeyStr identifier (pathSuffix path) (t / 60)) 1 (some 60) =
            some (count + 1, st2)) ∨
       (count ≥ (resolvedConfig rl path).requests_per_minute ∧
        ∃ bc st1,
          counterVal (Storage.get st t
            (burstKeyStr identifier (pathSuffix path))) = some bc ∧
          ¬ bc ≥ (resolvedConfig rl path).burst_size ∧
          Storage.increment st t (burstKeyStr identifier (pathSuffix path)) 1
            (some 3600) = some (bc + 1, st1) ∧
          Storage.increment st1 t
            (windowKeyStr identifier (pathSuffix path) (t / 60)) 1 (some 60) =
            some (count + 1, st2)))) := by
  simp only [checkLimit] at h
  split at h
  · next hcond =>
    left
    simp only [Option.some.injEq, Prod.mk.injEq] at h
    exact ⟨by simpa using hcond, h.2.1.symm, h.2.2.symm⟩
  · next hcond =>
    right
    have hen : (resolvedConfig rl path).enabled = true := by
      by_contra hne
      exact hcond (by simpa using hne)
    refine ⟨hen, ?_⟩
    split at h
    · exact absurd h (by simp)
    · next count hw =>
      refine ⟨count, hw, ?_⟩
      split at h
      · next hgeN =>
        right
        split at h
        · exact absurd h (by simp)
        · next burstCount hbget =>
          split at h
          · -- denied: contradiction with hallowed
            exfalso
            split at h
            · split at h
              · exact absurd h (by simp)
              · next violations st1 hvi =>
                split at h <;>
                · simp only [Option.some.injEq, Prod.mk.injEq] at h
                  rw [← h.1] at hallowed
                  simp at hallowed
            · simp only [Option.some.injEq, Prod.mk.injEq] at h
              rw [← h.1] at hallowed
              simp at hallowed
          · next hgeB =>
            split at h
            · exact absurd h (by simp)
            · next r1 st1 hi1 =>
              split at h
              · exact absurd h (by simp)
              · next r2 st2x hi2 =>
                simp only [Option.some.injEq, Prod.mk.injEq] at h
                obtain ⟨n1, hn1, hr1⟩ := increment_counterVal hi1
                have hn1' : n1 = burstCount := by
                  rw [hbget] at hn1
                  exact Option.some.inj hn1.symm
                subst hn1'
                subst hr1
                obtain ⟨n2, hn2, hr2⟩ := increment_counterVal hi2
                have hfr : st1 (windowKeyStr identifier (pathSuffix path)
                    (t / 60)) = st (windowKeyStr identifier (pathSuffix path)
                    (t / 60)) :=
                  increment_apply_ne hi1
                    (windowKey_ne_burstKey identifier (pathSuffix path) (t / 60))
                rw [get_congr t hfr, hw] at hn2
                have hn2' : n2 = count := Option.some.inj hn2.symm
                subst hn2'
                subst hr2
                exact ⟨hgeN, n1, st1, hbget, hgeB, hi1, h.2.1 ▸ hi2⟩
      · next hgeN =>
        left
        split at h
        · exact absurd h (by simp)
        · next r1 st1 hi1 =>
          simp only [Option.some.injEq, Prod.mk.injEq] at h
          obtain ⟨n1, hn1, hr1⟩ := increment_counterVal hi1
          rw [hw] at hn1
          have : n1 = count := Option.some.inj hn1.symm
          subst this
          subst hr1
          exact ⟨hgeN, h.2.1 ▸ hi1⟩

/-- The C6 store invariant: the window and burst counters hold integers
`w, b` with `0 ≤ w`, `0 ≤ b ≤ burst_size` and
`w ≤ requests_per_minute + b`. -/
def c6Inv (rl : RateLimiter) (identifier : String) (path : Option String)
    (mb : Nat) (st : Store) : Prop :=
  ∃ w b : Int,
    CounterIs mb st (windowKeyStr identifier (pathSuffix path) mb) w ∧
    CounterIs mb st (burstKeyStr identifier (pathSuffix path)) b ∧
    0 ≤ w ∧ 0 ≤ b ∧ b ≤ (resolvedConfig rl path).burst_size ∧
    w ≤ (resolvedConfig rl path).requests_per_minute + b

/-- Every successful `check_limit` call preserves the C6 invariant. -/
lemma c6_step (rl : RateLimiter) (identifier : String) (path : Option String)
    (mb t : Nat) (st : Store) (v : Verdict) (st2 : Store) (ops : List Op)
    (h : checkLimit rl identifier path t st = some (v, st2, ops))
    (ht : t / 60 = mb)
    (hinv : c6Inv rl identifier path mb st) :
    c6Inv rl identifier path mb st2 := by
  subst ht
  obtain ⟨w, b, hw, hb, hw0, hb0, hbB, hwNb⟩ := hinv
  cases hal : v.allowed with
  | false =>
    obtain ⟨hen, hv, hcases⟩ :=
      checkLimit_denied_cases rl identifier path t st v st2 ops h hal
    have htrans : ∀ st3 : Store,
        st3 (windowKeyStr identifier (pathSuffix path) (t / 60)) =
          st (windowKeyStr identifier (pathSuffix path) (t / 60)) →
        st3 (burstKeyStr identifier (pathSuffix path)) =
          st (burstKeyStr identifier (pathSuffix path)) →
        c6Inv rl identifier path (t / 60) st3 := by
      intro st3 h1 h2
      refine ⟨w, b, ?_, ?_, hw0, hb0, hbB, hwNb⟩
      · unfold CounterIs at hw ⊢
        rw [h1]
        exact hw
      · unfold CounterIs at hb ⊢
        rw [h2]
        exact hb
    rcases hcases with ⟨_, hst, _⟩ | ⟨_, n, st1, hn, hvi, hrest⟩
    · rw [hst]
      exact htrans st rfl rfl
    · have hfw := increment_apply_ne hvi
        (windowKey_ne_violationKey identifier (pathSuffix path) (t / 60))
      have hfb := increment_apply_ne hvi
        (burstKey_ne_violationKey identifier (pathSuffix path))
      rcases hrest with ⟨_, hst, _⟩ | ⟨_, hst, _⟩
      · rw [hst]
        refine htrans _ ?_ ?_
        · rw [set_apply_ne _ _ _ _ _
            (windowKey_ne_banKey identifier (pathSuffix path) (t / 60) identifier)]
          exact hfw
        · rw [set_apply_ne _ _ _ _ _
            (burstKey_ne_banKey identifier (pathSuffix path) identifier)]
          exact hfb
      · rw [hst]
        exact htrans st1 hfw hfb
  | true =>
    rcases checkLimit_allowed_cases rl identifier path t st v st2 ops h hal with
      ⟨_, hst, _⟩ | ⟨hen, count, hcount, hrest⟩
    · rw [hst]
      exact ⟨w, b, hw, hb, hw0, hb0, hbB, hwNb⟩
    · have hcw : w = count := by
        have h2 := counterVal_get_of_counterIs hw rfl
        exact Option.some.inj (h2.symm.trans hcount)
      subst hcw
      rcases hrest with ⟨hlt, hincr⟩ | ⟨hge, bc, st1, hbc, hblt, hi1, hi2⟩
      · obtain ⟨st2x, hincrx, hw2, hframe⟩ :=
          increment_counter_spec hw rfl (le_refl 60)
        rw [hincr] at hincrx
        have hst2 : st2 = st2x := congrArg Prod.snd (Option.some.inj hincrx)
        refine ⟨w + 1, b, ?_, ?_, by omega, hb0, hbB, by omega⟩
        · rw [hst2]
          exact Or.inr hw2
        · unfold CounterIs at hb ⊢
          rw [hst2, hframe _
            (Ne.symm (windowKey_ne_burstKey identifier (pathSuffix path) (t / 60)))]
          exact hb
      · obtain ⟨st1x, hi1x, hb2, hframe1⟩ :=
          increment_counter_spec hb rfl (by norm_num : (60:Nat) ≤ 3600)
        have hbcb : b = bc := by
          have h2 := counterVal_get_of_counterIs hb rfl
          exact Option.some.inj (h2.symm.trans hbc)
        subst hbcb
        rw [hi1] at hi1x
        have hst1 : st1 = st1x := congrArg Prod.snd (Option.some.inj hi1x)
        subst hst1
        have hw1 : CounterIs (t / 60) st1
            (windowKeyStr identifier (pathSuffix path) (t / 60)) w := by
          unfold CounterIs at hw ⊢
          rw [hframe1 _
            (windowKey_ne_burstKey identifier (pathSuffix path) (t / 60))]
          exact hw
        obtain ⟨st2x, hi2x, hw2, hframe2⟩ :=
          increment_counter_spec hw1 rfl (le_refl 60)
        rw [hi2] at hi2x
        have hst2 : st2 = st2x := congrArg Prod.snd (Option.some.inj hi2x)
        refine ⟨w + 1, b + 1, ?_, ?_, by omega, by omega, by omega, by omega⟩
        · rw [hst2]
          exact Or.inr hw2
        · obtain ⟨d2, hd2e, hd2⟩ := hb2
          refine Or.inr ⟨d2, ?_, hd2⟩
          rw [hst2, hframe2 _
            (Ne.symm (windowKey_ne_burstKey identifier (pathSuffix path) (t / 60)))]
          exact hd2e

/-- Any successful same-bucket call sequence preserves the C6 invariant. -/
lemma c6_run (rl : RateLimiter) (identifier : String) (path : Option String)
    (mb : Nat) :
    ∀ (ts : List Nat) (st : Store), c6Inv rl identifier path mb st →
      (∀ t ∈ ts, t / 60 = mb) → ∀ st2 vs,
      runSeq rl identifier path ts st = some (st2, vs) →
      c6Inv rl identifier path mb st2 := by
  intro ts
  induction ts with
  | nil =>
    intro st hinv hts st2 vs hrun
    simp only [runSeq, Option.some.injEq, Prod.mk.injEq] at hrun
    rw [← hrun.1]
    exact hinv
  | cons t ts ih =>
    intro st hinv hts st2 vs hrun
    simp only [runSeq] at hrun
    cases hc : checkLimit rl identifier path t st with
    | none => rw [hc] at hrun; exact absurd hrun (by simp)
    | some r =>
      obtain ⟨v, st1, ops⟩ := r
      rw [hc] at hrun
      dsimp only at hrun
      cases hr1 : runSeq rl identifier path ts st1 with
      | none => rw [hr1] at hrun; exact absurd hrun (by simp)
      | some r1 =>
        obtain ⟨st2x, vs1⟩ := r1
        rw [hr1] at hrun
        simp only [Option.some.injEq, Prod.mk.injEq] at hrun
        have hinv1 := c6_step rl identifier path mb t st v st1 ops hc
          (hts t (List.mem_cons_self t ts)) hinv
        have := ih st1 hinv1 (fun t2 ht2 => hts t2 (List.mem_cons_of_mem t ht2))
          st2x vs1 hr1
        rw [← hrun.1]
        exact this

/-- C6: under sequential execution, starting from the empty store, the
stored window counter for a minute bucket never exceeds
`requests_per_minute + burst_size` of the resolved rule; moreover
`check_limit` increments the window counter only on allowed requests — a
denied call leaves it unchanged. -/
theorem claim6_window_counter_bound (rl : RateLimiter) (identifier : String)
    (path : Option String) (mb : Nat) (ts : List Nat) (st2 : Store)
    (vs : List Verdict)
    (hN : 0 ≤ (resolvedConfig rl path).requests_per_minute)
    (hB : 0 ≤ (resolvedConfig rl path).burst_size)
    (hts : ∀ t ∈ ts, t / 60 = mb)
    (hrun : runSeq rl identifier path ts emptyStore = some (st2, vs)) :
    (∀ e n, st2 (windowKeyStr identifier (pathSuffix path) mb) = some e →
      e.val = .int n →
      n ≤ (resolvedConfig rl path).requests_per_minute +
        (resolvedConfig rl path).burst_size) ∧
    ∀ t3 st3 v3 st4 ops3,
      checkLimit rl identifier path t3 st3 = some (v3, st4, ops3) →
      v3.allowed = false →
      st4 (windowKeyStr identifier (pathSuffix path) (t3 / 60)) =
        st3 (windowKeyStr identifier (pathSuffix path) (t3 / 60)) := by
  constructor
  · intro e n hsome hval
    have hinv0 : c6Inv rl identifier path mb emptyStore :=
      ⟨0, 0, Or.inl ⟨rfl, rfl⟩, Or.inl ⟨rfl, rfl⟩, le_refl 0, le_refl 0, hB,
        by omega⟩
    obtain ⟨w, b, hw, hb, hw0, hb0, hbB, hwNb⟩ :=
      c6_run rl identifier path mb ts emptyStore hinv0 hts st2 vs hrun
    rcases hw with ⟨hnone, _⟩ | ⟨d, hsomew, _⟩
    · rw [hnone] at hsome
      cases hsome
    · rw [hsomew] at hsome
      have he : e = ⟨.int w, some d⟩ := (Option.some.inj hsome).symm
      subst he
      simp only [Val.int.injEq] at hval
      omega
  · intro t3 st3 v3 st4 ops3 h3 hd3
    obtain ⟨hen, hv, hcases⟩ :=
      checkLimit_denied_cases rl identifier path t3 st3 v3 st4 ops3 h3 hd3
    rcases hcases with ⟨_, hst, _⟩ | ⟨_, n, st1, hn, hvi, hrest⟩
    · rw [hst]
    · have hfw := increment_apply_ne hvi
        (windowKey_ne_violationKey identifier (pathSuffix path) (t3 / 60))
      rcases hrest with ⟨_, hst, _⟩ | ⟨_, hst, _⟩
      · rw [hst, set_apply_ne _ _ _ _ _
          (windowKey_ne_banKey identifier (pathSuffix path) (t3 / 60) identifier)]
        exact hfw
      · rw [hst]
        exact hfw

/-- Witness for C6: rule `N = 1, B = 0`, two calls in bucket 0 (one allowed,
one denied); the stored window counter is 1 ≤ 1 + 0. -/
theorem claim6_witness :
    (∀ e n, (Storage.set emptyStore 0 (windowKeyStr "203.0.113.7" "" 0)
        (.int 1) (some 60)) (windowKeyStr "203.0.113.7" "" 0) = some e →
      e.val = .int n → n ≤ 1 + 0) ∧
    ∀ t3 st3 v3 st4 ops3,
      checkLimit ⟨⟨true, 1, 0, 0, 10⟩, []⟩ "203.0.113.7" none t3 st3 =
        some (v3, st4, ops3) →
      v3.allowed = false →
      st4 (windowKeyStr "203.0.113.7" "" (t3 / 60)) =
        st3 (windowKeyStr "203.0.113.7" "" (t3 / 60)) :=
  claim6_window_counter_bound ⟨⟨true, 1, 0, 0, 10⟩, []⟩ "203.0.113.7" none 0
    [0, 0]
    (Storage.set emptyStore 0 (windowKeyStr "203.0.113.7" "" 0) (.int 1)
      (some 60))
    [⟨true, 0, 60, none⟩, ⟨false, 0, 60, some "Rate limit exceeded for global"⟩]
    (by decide) (by decide) (by decide) rfl

end PyWebGuard
